import Mathlib

/-!
Verification development for the xpra client protocol engine
(`src/app/xpra_client`): the growable buffer (`Strechy_Buffer`), the
length-prefixed frame assembler (`Xpra::Client::_on_ready`), the bencode
value decoder (`bencode::object` / `bencode::node`), the name dispatch
table (`Proto_Map` over `Mapping`/`strview`), and the payload-decode step
of the draw handler (`Xpra::Client::_draw`).

Bytes are modelled as natural numbers; buffers as `List Nat`.  Machine
`size_t` arithmetic is made explicit (`% 2^64`) where the code can wrap.
External library routines (LZ4, zlib) enter as oracle parameters; the
Genode string-parsing helpers (`ascii_to_unsigned`, `ascii_to`) are
modelled as exact decimal parses.
-/

namespace XpraProof

/-- Reads byte `i` of a buffer; out-of-range reads yield 0 (the decoder
treats a 0 byte as the end-of-stream sentinel). -/
def byteAt (buf : List Nat) (i : Nat) : Nat := buf.getD i 0

def U64 : Nat := 18446744073709551616

def INTMAX : Nat := 2147483647

/-!
## strview comparison (`string_view.h`)

`strview::cmp` is `memcmp(start, rhs.start, min(length, rhs.length))`:
only the first `min` bytes are compared.  `operator!=` is
`rhs.start != start && cmp(rhs)`; the pointer shortcut is redundant in a
value model (identical storage compares equal byte-wise), so equality is
`cmp = 0`.  The model returns the sign of the first differing byte pair,
which is all the callers consult.
-/

def memcmpL : List Nat → List Nat → Int
  | [], _ => 0
  | _ :: _, [] => 0
  | a :: as, b :: bs => if a < b then -1 else if b < a then 1 else memcmpL as bs

def svCmp (a b : List Nat) : Int :=
  memcmpL (a.take (min a.length b.length)) (b.take (min a.length b.length))

def svEq (a b : List Nat) : Bool := svCmp a b = 0

/-!
## Strechy_Buffer (`util.h`)

State: capacity, logical length, the consecutive-small-request counter,
and the storage contents.  `_resize` only ever grows: a requested
capacity at or below the current one returns the buffer unchanged.  The
doubling loop of `calculate_reservation` is modelled with fuel `request`,
which always suffices (capacity at least 1 doubles past any bound within
`request` steps); a capacity of 0 makes the source loop forever, modelled
by returning 0.
-/

structure SB where
  data : List Nat
  cap : Nat
  len : Nat
  csr : Nat
deriving Repr, DecidableEq

def dUgo : Nat → Nat → Nat → Nat
  | 0, cap, _ => cap
  | f + 1, cap, req => if cap < req then dUgo f (cap * 2) req else cap

def doubleUntil (cap req : Nat) : Nat := dUgo req cap req

/-- Second half of `Strechy_Buffer::calculate_reservation`: grow by
doubling if the capacity cannot hold the request, shrink to
`min(cap/2, 1)` after more than 8 consecutive small requests, else keep
the capacity. -/
def calcGrow (sb : SB) (request : Nat) : SB × Nat :=
  if sb.cap < request then (sb, doubleUntil sb.cap request)
  else if 8 < sb.csr then (sb, min (sb.cap / 2) 1)
  else (sb, sb.cap)

/-- Embeds `Strechy_Buffer::calculate_reservation`: update the
consecutive-small-request counter, then pick the new capacity. -/
def calculate_reservation (sb : SB) (request : Nat) : SB × Nat :=
  calcGrow (if request < sb.cap / 4
            then { sb with csr := sb.csr + 1 }
            else { sb with csr := 0 }) request

/-- Embeds `Strechy_Buffer::_resize`: a new capacity at or below the
current one leaves the buffer untouched; otherwise the first `len` bytes
are copied into fresh storage of the new capacity. -/
def resizeSB (sb : SB) (newcap : Nat) : SB :=
  if newcap ≤ sb.cap then sb
  else { sb with data := sb.data.take sb.len ++ List.replicate (newcap - sb.len) 0,
                 cap := newcap }

/-- Embeds `Strechy_Buffer::reserve_reset` (with `sizeof(T) = 1`). -/
def reserve_reset (sb : SB) (request : Nat) : SB :=
  let sb := { sb with len := 0 }
  let r := calculate_reservation sb request
  resizeSB r.1 r.2

/-- Embeds `Strechy_Buffer::reserve_addnl`; the returned offset is where
the writable space begins (`_buffer + _length`). -/
def reserve_addnl (sb : SB) (request : Nat) : SB × Nat :=
  let r := calculate_reservation sb (request + sb.len)
  (resizeSB r.1 r.2, sb.len)

def extend_length (sb : SB) (n : Nat) : SB := { sb with len := sb.len + n }

/-!
## Frame assembler (`Xpra::Client::_on_ready`, `client.cc`)

The read handler buffers exactly the requested amount and then invokes
`_on_ready(length, buf)` with `buf` the address the bytes were read to.
The model keeps the packet buffer, the pending side chunk (`idxview`:
offset and length relative to the buffer base), and the pending read
request (length and offset).  A dispatch to `_handlers.dispatch` is
recorded as an event carrying the payload bytes and, when a side chunk is
pending, the bytes its `(offset, length)` pair resolves to against the
buffer base at dispatch time (`idxview::slice(_pktbuf.base())`, exactly
what `_draw` performs).
-/

def be32 (b0 b1 b2 b3 : Nat) : Nat := ((b0 * 256 + b1) * 256 + b2) * 256 + b3

def be32bytes (n : Nat) : List Nat :=
  [n / 16777216 % 256, n / 65536 % 256, n / 256 % 256, n % 256]

inductive Ev
  | dispatchCall (payload : List Nat) (resolved : Option (List Nat))
deriving Repr, DecidableEq

structure CState where
  sb : SB
  waiting : Option (Nat × Nat)
  reqLen : Nat
  reqOff : Nat
deriving Repr, DecidableEq

/-- Embeds `Xpra::Client::_on_ready`.  `length` is the size of the read
that just completed, `bufOff` the offset (relative to the buffer base)
the bytes were read to.  A read of exactly `sizeof(Protocol::Header)`
= 8 bytes is interpreted as a header; otherwise the header stored 8 bytes
before the payload decides between recording a side chunk
(`chunk_idx != 0`) and dispatching a primary message. -/
def onReady (st : CState) (length bufOff : Nat) : CState × List Ev :=
  let sb := extend_length st.sb length
  if length = 8 then
    let plen := be32 (byteAt sb.data (bufOff + 4)) (byteAt sb.data (bufOff + 5))
                     (byteAt sb.data (bufOff + 6)) (byteAt sb.data (bufOff + 7))
    let r := reserve_addnl sb plen
    ({ st with sb := r.1, reqLen := plen, reqOff := r.2 }, [])
  else if byteAt sb.data (bufOff - 8 + 3) ≠ 0 then
    let r := reserve_addnl sb 8
    ({ sb := r.1, waiting := some (bufOff, length), reqLen := 8, reqOff := r.2 }, [])
  else
    let payload := (sb.data.drop bufOff).take length
    let resolved := st.waiting.map (fun w => (sb.data.drop w.1).take w.2)
    let sb2 := reserve_reset sb 8
    ({ sb := sb2, waiting := none, reqLen := 8, reqOff := 0 },
     [.dispatchCall payload resolved])

def writeAt (sb : SB) (off : Nat) (chunk : List Nat) : SB :=
  { sb with data := sb.data.take off ++ chunk ++ sb.data.drop (off + chunk.length) }

/-- Drives `_on_ready` from a wire byte stream: each step completes the
pending read request (writing the bytes at the requested offset) and
fires `_on_ready`.  A request the stream cannot satisfy stops the run
(the connection blocks). -/
def runFrames : Nat → List Nat → CState → CState × List Ev
  | 0, _, st => (st, [])
  | fuel + 1, wire, st =>
    if st.reqLen = 0 ∨ wire.length < st.reqLen then (st, [])
    else
      let sb := writeAt st.sb st.reqOff (wire.take st.reqLen)
      let r1 := onReady { st with sb := sb } st.reqLen st.reqOff
      let r2 := runFrames fuel (wire.drop st.reqLen) r1.1
      (r2.1, r1.2 ++ r2.2)

/-- Initial state after the constructor: a header-sized request into the
fresh header-sized packet buffer. -/
def initState : CState :=
  { sb := { data := List.replicate 8 0, cap := 8, len := 0, csr := 0 },
    waiting := none, reqLen := 8, reqOff := 0 }

/-- Wire bytes for one frame header: magic, two flag bytes, chunk index,
then the payload length, big-endian. -/
def mkHeader (f1 f2 chunk plen : Nat) : List Nat :=
  [80, f1, f2, chunk] ++ be32bytes plen

/-- The 8-byte bencode message `l4:pinge` (a list whose sole element is
the byte string `ping`), an entirely well-formed primary payload. -/
def pingMsg : List Nat := [108, 52, 58, 112, 105, 110, 103, 101]

/-- C2: a primary frame declaring a payload of exactly 8 bytes is never
parsed or dispatched.  Feeding the header `{chunk_idx = 0, length = 8}`
followed by the well-formed 8-byte message `l4:pinge` produces no
dispatch call: because `_on_ready` distinguishes headers from payloads
solely by `length == sizeof(Protocol::Header)`, the 8 payload bytes are
re-read as a frame header, and the client instead requests a bogus
1768843109-byte (`be32 of "inge"`) follow-up read. -/
theorem C2_eight_byte_payload_misread :
    (runFrames 3 (mkHeader 0 0 0 8 ++ pingMsg) initState).2 = [] ∧
    (runFrames 3 (mkHeader 0 0 0 8 ++ pingMsg) initState).1.reqLen = 1768843109 := by
  decide

/-- Nine consecutive small `reserve_reset` requests on a capacity-512
buffer, as in the shrink-heuristic scenario. -/
def shrinkScenario : SB :=
  (fun sb => reserve_reset sb 1)^[9] { data := [], cap := 512, len := 0, csr := 0 }

/-- C4: after 9 consecutive `reserve_reset(1)` calls on a capacity-512
buffer the capacity is unchanged at 512, not halved to 256.  The counter
does reach 9 and `calculate_reservation` does enter its shrink branch,
but that branch computes `min(cap/2, 1) = 1` (`min` where the
`Never go to 0` comment calls for `max`), and `_resize` ignores every
request at or below the current capacity, so no shrink ever happens. -/
theorem C4_shrink_never_happens :
    shrinkScenario.cap = 512 ∧ shrinkScenario.cap ≠ 256 ∧ shrinkScenario.csr = 9 ∧
    (calculate_reservation { data := [], cap := 512, len := 0, csr := 8 } 1).2 = 1 := by
  decide

/-!
## Payload-decode step of the draw handler (`Xpra::Client::_draw`)

The model starts where the claims do: after the message fields have been
extracted (`w`, `h`, `stride` already clamped to `INT_MAX`, the format
byte string, the blob length, the optional pending side chunk length) and
after the compression hint has been read from the optional config dict
(`lz4` when no dict is present or its `lz4` entry is true, `zlib` when
its `zlib` entry is a nonzero integer, raw otherwise).  The external
decompressors are oracle parameters: `lz4fn` maps the compressed length
handed to `LZ4_decompress_safe` to its return value; `zlibfn` maps the
input length to `uncompress`'s status and output size.  The result
records whether an error message was constructed, whether the pixel
update (`update32`/`update24`) was applied to the window, the exit-guard
effects (a `buffer_refresh` exactly when an error is pending, a
`damage_sequence` always), and the length handed to the LZ4 call, if
any.  The unguarded divisions (`INT_MAX/h`, and `stride/w` inside
`update24`) crash instead of producing a value.
-/

inductive Hint | lz4 | zlib | raw
deriving Repr, DecidableEq

structure DrawMsg where
  w : Nat
  h : Nat
  stride : Nat
  format : List Nat
  blobLen : Nat
  waiting : Option Nat
  hint : Hint
deriving Repr, DecidableEq

inductive DCrash | divByZero
deriving Repr, DecidableEq

structure DrawRes where
  errored : Bool
  applied : Bool
  refresh : Bool
  damage : Bool
  lz4CallLen : Option Nat
deriving Repr, DecidableEq

def rgb32bytes : List Nat := [114, 103, 98, 51, 50]

def rgb24bytes : List Nat := [114, 103, 98, 50, 52]

/-- Embeds the tail of `_draw`: the format comparison (via the strview
prefix-tolerant equality) and the window update.  Control reaches this
point with the error flag of the codec branch still pending; `update24`
divides by `w`. -/
def applyFmt (m : DrawMsg) (er : Bool) (l4 : Option Nat) : Except DCrash DrawRes :=
  if svEq m.format rgb32bytes then .ok ⟨er, true, er, true, l4⟩
  else if svEq m.format rgb24bytes then
    if m.w = 0 then .error .divByZero
    else .ok ⟨er, true, er, true, l4⟩
  else .ok ⟨true, false, true, true, l4⟩

/-- Embeds the payload-decode step of `_draw`, from the RGB-data check to
the window update. -/
def drawStep (lz4fn : Nat → Int) (zlibfn : Nat → Int × Nat) (m : DrawMsg) :
    Except DCrash DrawRes :=
  if m.blobLen = 0 ∧ m.waiting = none then .ok ⟨true, false, true, true, none⟩
  else
    let dataLen := if m.blobLen ≠ 0 then m.blobLen else m.waiting.getD 0
    if m.h = 0 then .error .divByZero
    else
      let expected := min (INTMAX / m.h) m.stride * m.h
      match m.hint with
      | .lz4 =>
        if expected < 4 then .ok ⟨true, false, true, true, none⟩
        else
          let len := (dataLen + (U64 - 4)) % U64
          applyFmt m (decide (lz4fn len ≠ (expected : Int))) (some len)
      | .zlib =>
        let r := zlibfn dataLen
        applyFmt m (decide (r.1 ≠ 0 ∨ r.2 ≠ expected)) none
      | .raw =>
        if dataLen ≠ expected then .ok ⟨true, false, true, true, none⟩
        else applyFmt m false none

/-- Draw message used for the C1 failing input: an rgb32 draw of height
1 and stride 40 (so the expected payload size is 40), an lz4 hint, and a
20-byte blob in the message itself. -/
def c1Msg : DrawMsg :=
  { w := 10, h := 1, stride := 40, format := rgb32bytes,
    blobLen := 20, waiting := none, hint := .lz4 }

/-- C1: a failed LZ4 decode still applies the payload to the window.
With `LZ4_decompress_safe` returning -1 (decompression failure), the
result records both the error (so the exit guard requests a refresh and
logs a diagnostic) and the application of the scratch buffer via
`update32`: the lz4 and zlib branches of `_draw` construct the error but,
unlike the uncompressed branch, do not return, so execution falls
through to the format dispatch and paints the window. -/
theorem C1_lz4_failure_still_applied :
    drawStep (fun _ => -1) (fun _ => (0, 0)) c1Msg =
      .ok ⟨true, true, true, true, some 16⟩ := by
  rfl

/-- C9: the expected payload size `min(INT_MAX/h, stride) * h` divides by
the message's declared height before any codec selection or size check:
whenever RGB data is present and the height is 0, `_draw` reaches the
division by zero, for every codec hint, format, and decompressor. -/
theorem C9_height_zero_division (lz4fn : Nat → Int) (zlibfn : Nat → Int × Nat)
    (m : DrawMsg) (hh : m.h = 0) (hd : m.blobLen ≠ 0 ∨ m.waiting ≠ none) :
    drawStep lz4fn zlibfn m = .error .divByZero := by
  unfold drawStep
  have hnd : ¬ (m.blobLen = 0 ∧ m.waiting = none) := by
    rcases hd with h | h
    · exact fun hc => h hc.1
    · exact fun hc => h hc.2
  simp [hnd, hh]

/-- Witness for C9 at a concrete height-0 draw message. -/
theorem C9_height_zero_division_witness :
    drawStep (fun _ => 0) (fun _ => (0, 0))
      { w := 4, h := 0, stride := 16, format := rgb32bytes,
        blobLen := 7, waiting := none, hint := .zlib } = .error .divByZero :=
  C9_height_zero_division (fun _ => 0) (fun _ => (0, 0)) _ rfl (Or.inl (by decide))

/-- C10: in the lz4 branch the 4-byte size prefix is stripped by a
`size_t` subtraction guarded only by `expected >= 4`, never by the raw
input length: a blob shorter than 4 bytes wraps modulo 2^64 and the
wrapped length `blobLen + 2^64 - 4` is handed to `LZ4_decompress_safe`. -/
theorem C10_lz4_length_wrap (lz4fn : Nat → Int) (zlibfn : Nat → Int × Nat)
    (m : DrawMsg) (hhint : m.hint = .lz4) (hb : m.blobLen ≠ 0) (hb4 : m.blobLen < 4)
    (hh : m.h ≠ 0) (hex : 4 ≤ min (INTMAX / m.h) m.stride * m.h)
    (hf : svEq m.format rgb32bytes = true) :
    ∃ r, drawStep lz4fn zlibfn m = .ok r ∧
         r.lz4CallLen = some (m.blobLen + 18446744073709551612) := by
  have hnd : ¬ (m.blobLen = 0 ∧ m.waiting = none) := fun hc => hb hc.1
  have hwrap : (m.blobLen + (U64 - 4)) % U64 = m.blobLen + 18446744073709551612 := by
    have h1 : m.blobLen + (U64 - 4) < U64 := by unfold U64; omega
    rw [Nat.mod_eq_of_lt h1]; unfold U64; omega
  refine ⟨⟨decide (lz4fn (m.blobLen + 18446744073709551612) ≠
              ((min (INTMAX / m.h) m.stride) * m.h : Int)), true,
           decide (lz4fn (m.blobLen + 18446744073709551612) ≠
              ((min (INTMAX / m.h) m.stride) * m.h : Int)), true,
           some (m.blobLen + 18446744073709551612)⟩, ?_, rfl⟩
  unfold drawStep
  simp only [hnd, if_false, hh, hhint, hb, hwrap, ite_false, ite_true,
             Nat.not_lt.mpr hex, ite_not, if_neg hh]
  simp [applyFmt, hf, hb]

/-- Witness for C10: a 2-byte lz4-hinted blob is handed to the
decompressor with wrapped length 2^64 - 2. -/
theorem C10_lz4_length_wrap_witness :
    ∃ r, drawStep (fun _ => 5) (fun _ => (0, 0))
      { w := 10, h := 1, stride := 40, format := rgb32bytes,
        blobLen := 2, waiting := none, hint := .lz4 } = .ok r ∧
      r.lz4CallLen = some 18446744073709551614 :=
  C10_lz4_length_wrap (fun _ => 5) (fun _ => (0, 0)) _ rfl (by decide) (by decide)
    (by decide) (by decide) (by decide)

/-!
## Bencode value decoder (`bencode_decode.h` / `bencode_decode.cc`)

A `bencode::object` is a cursor into a byte range: `_pos`, `_last` (the
index of the terminator byte) and the cached `_len`.  The constructor
parses a decimal length prefix (the Genode `ascii_to_unsigned` decimal
parse: the value goes to `_len`, the digit count advances `_pos`, the
advance clamped to `(_last - _pos) - 1` computed in `size_t`), and bumps
a nonzero `_len` by one for the `:` separator.  Tag bytes: `d` dict,
`:` string (the cursor of a string sits on the separator), `l` list,
`i` integer, `e` end of collection, `\0` end of stream, `R` raw
(serializer-only).
-/

def digitsFrom (buf : List Nat) (i : Nat) : List Nat :=
  (buf.drop i).takeWhile (fun c => 48 ≤ c && c ≤ 57)

def digVal (ds : List Nat) : Nat := ds.foldl (fun a c => a * 10 + (c - 48)) 0

/-- Models the decimal case of Genode `ascii_to_unsigned`: the parsed
value and the number of digit characters consumed. -/
def parseDigits (buf : List Nat) (i : Nat) : Nat × Nat :=
  ((digitsFrom buf i).foldl (fun a c => a * 10 + (c - 48)) 0, (digitsFrom buf i).length)

/-- Models Genode `ascii_to` for `long`: an optional leading minus sign
followed by decimal digits; with no digits the result stays 0 and only
the sign character is consumed. -/
def parseSigned (buf : List Nat) (i : Nat) : Int × Nat :=
  if byteAt buf i = 45 then
    let p := parseDigits buf (i + 1)
    if p.2 = 0 then (0, 1) else (-(p.1 : Int), p.2 + 1)
  else
    let p := parseDigits buf i
    ((p.1 : Int), p.2)

structure Cur where
  pos : Nat
  last : Nat
  len : Nat
deriving Repr, DecidableEq

/-- Embeds the `bencode::object` constructor `object(fst, lst)`.  The
bound `(lst - fst) - 1` is `size_t` arithmetic: for `lst = fst` it wraps
to 2^64 - 1 and never clamps. -/
def mkCur (buf : List Nat) (fst lst : Nat) : Cur :=
  let p := parseDigits buf fst
  let bound := if lst = fst then U64 - 1 else lst - fst - 1
  { pos := fst + min p.2 bound, last := lst, len := if p.1 = 0 then 0 else p.1 + 1 }

def tagOf (buf : List Nat) (c : Cur) : Nat := byteAt buf c.pos

def remC (c : Cur) : Nat := c.last - c.pos

inductive PErr | notNatural | reachedEnd | invalidBuffer | unexpectedType
deriving Repr, DecidableEq

/-- Tag bytes the `validate_type` switch recognizes as real kinds:
`d`, `:`, `l`, `i`, `\0`, `e`. -/
def validKinds : List Nat := [100, 58, 108, 105, 0, 101]

/-- Embeds `bencode::object::validate_type`: a tag equal to the expected
one passes; a recognized kind is the wrong type; anything else (the
serializer-only `R` included) is an invalid buffer. -/
def validate_type (buf : List Nat) (c : Cur) (expected : Nat) : Except PErr Unit :=
  if tagOf buf c = expected then .ok ()
  else if tagOf buf c ∈ validKinds then .error .unexpectedType
  else .error .invalidBuffer

/-- Embeds `bencode::object::string`: validate the tag and the cached
length against the remaining bytes (`validate_len`), then return the view
just past the separator. -/
def stringA (buf : List Nat) (c : Cur) : Except PErr (Nat × Nat) :=
  match validate_type buf c 58 with
  | .error e => .error e
  | .ok _ =>
    if c.len > remC c then .error .invalidBuffer
    else .ok (c.pos + 1, if c.len = 0 then 0 else c.len - 1)

/-- Embeds `bencode::object::integer`: validate the tag, parse the signed
decimal after the `i`, cache the length (digits plus the two delimiter
characters). -/
def integerA (buf : List Nat) (c : Cur) : Except PErr (Int × Cur) :=
  match validate_type buf c 105 with
  | .error e => .error e
  | .ok _ =>
    let p := parseSigned buf (c.pos + 1)
    .ok (p.1, { c with len := p.2 + 2 })

/-- Embeds `bencode::object::natural`: take the integer and reject a
negative value. -/
def naturalA (buf : List Nat) (c : Cur) : Except PErr (Nat × Cur) :=
  match integerA buf c with
  | .error e => .error e
  | .ok r => if r.1 < 0 then .error .notNatural else .ok (r.1.toNat, r.2)

/-- Embeds `bencode::object::list`: validate the tag and step inside. -/
def listA (buf : List Nat) (c : Cur) : Except PErr Cur :=
  match validate_type buf c 108 with
  | .error e => .error e
  | .ok _ => .ok (mkCur buf (c.pos + 1) c.last)

structure DictCur where
  cur : Cur
  key : Cur
deriving Repr, DecidableEq

/-- Embeds `bencode::object::dict` with `dict::create`: validate the tag,
parse the key object just inside, and position the entry cursor at the
key's end. -/
def dictA (buf : List Nat) (c : Cur) : Except PErr DictCur :=
  match validate_type buf c 100 with
  | .error e => .error e
  | .ok _ =>
    let k := mkCur buf (c.pos + 1) c.last
    .ok ⟨mkCur buf (k.pos + k.len) c.last, k⟩

/-- C7: accessing a value as the wrong kind errors as the actual tag
dictates.  For each accessor: a recognized tag other than the expected
one raises the unexpected-type error; an unrecognized tag raises the
invalid-buffer error; and a string whose declared length would read past
the buffer limit raises the invalid-buffer error. -/
theorem C7_wrong_type_errors (buf : List Nat) (c : Cur) :
    (tagOf buf c ∈ validKinds → tagOf buf c ≠ 58 →
       stringA buf c = .error .unexpectedType) ∧
    (tagOf buf c ∉ validKinds → stringA buf c = .error .invalidBuffer) ∧
    (tagOf buf c = 58 → c.len > remC c → stringA buf c = .error .invalidBuffer) ∧
    (tagOf buf c ∈ validKinds → tagOf buf c ≠ 105 →
       integerA buf c = .error .unexpectedType) ∧
    (tagOf buf c ∉ validKinds → integerA buf c = .error .invalidBuffer) ∧
    (tagOf buf c ∈ validKinds → tagOf buf c ≠ 108 →
       listA buf c = .error .unexpectedType) ∧
    (tagOf buf c ∉ validKinds → listA buf c = .error .invalidBuffer) ∧
    (tagOf buf c ∈ validKinds → tagOf buf c ≠ 100 →
       dictA buf c = .error .unexpectedType) ∧
    (tagOf buf c ∉ validKinds → dictA buf c = .error .invalidBuffer) := by
  have h58 : tagOf buf c ∉ validKinds → tagOf buf c ≠ 58 :=
    fun hnv h => hnv (by rw [h]; decide)
  have h105 : tagOf buf c ∉ validKinds → tagOf buf c ≠ 105 :=
    fun hnv h => hnv (by rw [h]; decide)
  have h108 : tagOf buf c ∉ validKinds → tagOf buf c ≠ 108 :=
    fun hnv h => hnv (by rw [h]; decide)
  have h100 : tagOf buf c ∉ validKinds → tagOf buf c ≠ 100 :=
    fun hnv h => hnv (by rw [h]; decide)
  refine ⟨fun hv hne => ?_, fun hnv => ?_, fun ht hl => ?_,
          fun hv hne => ?_, fun hnv => ?_,
          fun hv hne => ?_, fun hnv => ?_,
          fun hv hne => ?_, fun hnv => ?_⟩
  · simp [stringA, validate_type, hne, hv]
  · simp [stringA, validate_type, h58 hnv, hnv]
  · simp [stringA, validate_type, ht, hl]
  · simp [integerA, validate_type, hne, hv]
  · simp [integerA, validate_type, h105 hnv, hnv]
  · simp [listA, validate_type, hne, hv]
  · simp [listA, validate_type, h108 hnv, hnv]
  · simp [dictA, validate_type, hne, hv]
  · simp [dictA, validate_type, h100 hnv, hnv]

/-- Witness for C7 at concrete cursors: an integer tag read as a string,
an unrecognized tag, and an overlong string length. -/
theorem C7_wrong_type_errors_witness :
    stringA [105, 53, 101] (mkCur [105, 53, 101] 0 2) = .error .unexpectedType ∧
    stringA [120, 120] (mkCur [120, 120] 0 1) = .error .invalidBuffer ∧
    stringA [57, 58, 97] (mkCur [57, 58, 97] 0 2) = .error .invalidBuffer := by
  refine ⟨(C7_wrong_type_errors [105, 53, 101] (mkCur [105, 53, 101] 0 2)).1
            (by decide) (by decide),
          (C7_wrong_type_errors [120, 120] (mkCur [120, 120] 0 1)).2.1 (by decide),
          (C7_wrong_type_errors [57, 58, 97] (mkCur [57, 58, 97] 0 2)).2.2.1
            (by decide) (by decide)⟩

/-- C8: `natural()` on an encoded negative integer (tag `i`, a minus
sign, digits of nonzero value) raises the not-a-natural-number error and
never produces a wrapped value. -/
theorem C8_negative_natural (buf : List Nat) (c : Cur)
    (ht : tagOf buf c = 105) (hm : byteAt buf (c.pos + 1) = 45)
    (hd : 0 < (parseDigits buf (c.pos + 2)).1) :
    naturalA buf c = .error .notNatural := by
  have hc : (parseDigits buf (c.pos + 2)).2 ≠ 0 := by
    intro h0
    unfold parseDigits at hd h0
    rw [List.length_eq_zero] at h0
    simp [h0] at hd
  have h2 : c.pos + 1 + 1 = c.pos + 2 := rfl
  have hneg : (-(((parseDigits buf (c.pos + 2)).1 : Int)) < 0) := by omega
  unfold naturalA integerA validate_type parseSigned
  simp [ht, hm, h2, hc, hneg]

/-- Witness for C8 on the buffer `i-5e`. -/
theorem C8_negative_natural_witness :
    naturalA [105, 45, 53, 101] (mkCur [105, 45, 53, 101] 0 3) =
      .error .notNatural :=
  C8_negative_natural [105, 45, 53, 101] (mkCur [105, 45, 53, 101] 0 3)
    (by decide) (by decide) (by decide)

/-!
## Skipping nested values (`bencode::node::next` / `bencode::node::skipall`)

`next()` measures an unparsed value; for a list or dict tag it enters the
collection (`T{_pos+1, _last}`) and calls `skipall()`, whose loop calls
`next()` on each element until the end-of-collection tag: a mutual call
recursion, one `next`/`skipall` frame pair deeper per nesting level.  The
model makes both budgets explicit: `steps` bounds the total number of
evaluation steps and is only a totality device (the source has no such
bound, and every theorem below holds for every `steps`); `depth` counts
exactly the mutual-call nesting, which is what the C++ call stack pays
for.  Mode `true` is `next()`, mode `false` is the `skipall()` loop; a
loop iteration keeps its own depth, a mutual call descends one level.
-/

inductive WRes
  | okC (c : Cur)
  | okE (e : Nat)
  | err (e : PErr)
  | depthOut
  | stepOut
deriving Repr, DecidableEq

def walk (buf : List Nat) : Nat → Nat → Bool → Cur → WRes
  | 0, _, _, _ => .stepOut
  | steps + 1, depth, true, c =>
    if c.len = 0 then
      if tagOf buf c = 101 then .err .reachedEnd
      else if tagOf buf c = 105 then
        .okC (mkCur buf (c.pos + ((parseSigned buf (c.pos + 1)).2 + 2)) c.last)
      else if tagOf buf c = 108 ∨ tagOf buf c = 100 then
        match depth with
        | 0 => .depthOut
        | depth + 1 =>
          match walk buf steps depth false (mkCur buf (c.pos + 1) c.last) with
          | .okE e => .okC (mkCur buf (c.pos + (e - c.pos)) c.last)
          | .okC _ => .err .invalidBuffer
          | .err e => .err e
          | .depthOut => .depthOut
          | .stepOut => .stepOut
      else if tagOf buf c = 58 then .okC (mkCur buf (c.pos + 1) c.last)
      else .err .invalidBuffer
    else .okC (mkCur buf (c.pos + c.len) c.last)
  | steps + 1, depth, false, c =>
    if tagOf buf c = 101 then .okE (c.pos + 1)
    else
      match depth with
      | 0 => .depthOut
      | depth + 1 =>
        match walk buf steps depth true c with
        | .okC c2 => walk buf steps (depth + 1) false c2
        | .okE _ => .err .invalidBuffer
        | .err e => .err e
        | .depthOut => .depthOut
        | .stepOut => .stepOut

def isOkC : WRes → Bool
  | .okC _ => true
  | _ => false

def isOkE : WRes → Bool
  | .okE _ => true
  | _ => false

/-- A buffer whose first byte is not a decimal digit yields a cursor with
no length-prefix advance and a zero cached length. -/
lemma mkCur_nondigit (buf : List Nat) (f l : Nat)
    (h : ¬(48 ≤ byteAt buf f ∧ byteAt buf f ≤ 57)) :
    mkCur buf f l = ⟨f, l, 0⟩ := by
  have hd : digitsFrom buf f = [] := by
    unfold digitsFrom
    by_cases hf : f < buf.length
    · rw [List.drop_eq_getElem_cons hf]
      have hb : byteAt buf f = buf[f] := List.getD_eq_getElem buf 0 hf
      have : (48 ≤ buf[f] && buf[f] ≤ 57) = false := by
        rw [← hb]
        rcases Nat.lt_or_ge (byteAt buf f) 48 with hlt | hge
        · simp [Nat.not_le.mpr hlt]
        · have : ¬ byteAt buf f ≤ 57 := fun hle => h ⟨hge, hle⟩
          simp [this]
      simp [List.takeWhile, this]
    · rw [List.drop_eq_nil_of_le (by omega)]
      rfl
  unfold mkCur parseDigits
  rw [hd]
  simp

/-- Unfolds one `next()` step at a list tag with depth budget left. -/
lemma walk_true_list (buf : List Nat) (s d : Nat) (c : Cur)
    (hlen : c.len = 0) (htag : tagOf buf c = 108) :
    walk buf (s + 1) (d + 1) true c =
      (match walk buf s d false (mkCur buf (c.pos + 1) c.last) with
       | .okE e => .okC (mkCur buf (c.pos + (e - c.pos)) c.last)
       | .okC _ => .err .invalidBuffer
       | .err e => .err e
       | .depthOut => .depthOut
       | .stepOut => .stepOut) := by
  conv_lhs => simp only [walk]
  rw [if_pos hlen, if_neg (by rw [htag]; decide), if_neg (by rw [htag]; decide),
      if_pos (show tagOf buf c = 108 ∨ tagOf buf c = 100 from Or.inl htag)]

/-- Unfolds one `next()` step at a list tag with no depth budget. -/
lemma walk_true_depth0 (buf : List Nat) (s : Nat) (c : Cur)
    (hlen : c.len = 0) (htag : tagOf buf c = 108) :
    walk buf (s + 1) 0 true c = .depthOut := by
  conv_lhs => simp only [walk]
  rw [if_pos hlen, if_neg (by rw [htag]; decide), if_neg (by rw [htag]; decide),
      if_pos (show tagOf buf c = 108 ∨ tagOf buf c = 100 from Or.inl htag)]

/-- Unfolds one `skipall()` iteration at a list tag with depth budget
left. -/
lemma walk_false_notE (buf : List Nat) (s d : Nat) (c : Cur)
    (htag : tagOf buf c = 108) :
    walk buf (s + 1) (d + 1) false c =
      (match walk buf s d true c with
       | .okC c2 => walk buf s (d + 1) false c2
       | .okE _ => .err .invalidBuffer
       | .err e => .err e
       | .depthOut => .depthOut
       | .stepOut => .stepOut) := by
  conv_lhs => simp only [walk]
  rw [if_neg (by rw [htag]; decide)]

/-- Unfolds one `skipall()` iteration at a list tag with no depth
budget. -/
lemma walk_false_depth0 (buf : List Nat) (s : Nat) (c : Cur)
    (htag : tagOf buf c = 108) :
    walk buf (s + 1) 0 false c = .depthOut := by
  conv_lhs => simp only [walk]
  rw [if_neg (by rw [htag]; decide)]

/-- The call-depth lower bound: a cursor sitting on `j` consecutive
list-open tags cannot be skipped by `next()` within mutual-call depth
`2j - 2`, nor consumed by a `skipall()` loop within depth `2j - 1`,
no matter how many evaluation steps are allowed. -/
lemma walk_depth_lower (buf : List Nat) :
    ∀ j c steps depth,
      (∀ i, i < j → byteAt buf (c.pos + i) = 108) → c.len = 0 →
      (depth + 2 ≤ 2 * j → isOkC (walk buf steps depth true c) = false) ∧
      (depth + 1 ≤ 2 * j → isOkE (walk buf steps depth false c) = false) := by
  intro j
  induction j with
  | zero =>
    intro c steps depth _ _
    exact ⟨fun h => by omega, fun h => by omega⟩
  | succ j ih =>
    intro c steps depth hlead hlen
    have htag : tagOf buf c = 108 := by simpa using hlead 0 (by omega)
    have hnext : ∀ steps depth, depth + 2 ≤ 2 * (j + 1) →
        isOkC (walk buf steps depth true c) = false := by
      intro steps depth hdep
      cases steps with
      | zero => rfl
      | succ s =>
        cases depth with
        | zero => rw [walk_true_depth0 buf s c hlen htag]; rfl
        | succ d =>
          have hj : 1 ≤ j := by omega
          have hmk : mkCur buf (c.pos + 1) c.last = ⟨c.pos + 1, c.last, 0⟩ := by
            apply mkCur_nondigit
            have h1 := hlead 1 (by omega)
            rw [h1]; omega
          have hsk := (ih ⟨c.pos + 1, c.last, 0⟩ s d
            (fun i hi => by
              show byteAt buf (c.pos + 1 + i) = 108
              have h2 := hlead (i + 1) (by omega)
              have h3 : c.pos + 1 + i = c.pos + (i + 1) := by omega
              rw [h3]; exact h2) rfl).2 (by omega)
          rw [walk_true_list buf s d c hlen htag, hmk]
          cases hr : walk buf s d false (⟨c.pos + 1, c.last, 0⟩ : Cur) with
          | okC c2 => rfl
          | okE e => rw [hr] at hsk; exact absurd hsk (by simp [isOkE])
          | err e => rfl
          | depthOut => rfl
          | stepOut => rfl
    have hskip : ∀ steps depth, depth + 1 ≤ 2 * (j + 1) →
        isOkE (walk buf steps depth false c) = false := by
      intro steps depth hdep
      cases steps with
      | zero => rfl
      | succ s =>
        cases depth with
        | zero => rw [walk_false_depth0 buf s c htag]; rfl
        | succ d =>
          have hn := hnext s d (by omega)
          rw [walk_false_notE buf s d c htag]
          cases hr : walk buf s d true c with
          | okC c2 => rw [hr] at hn; exact absurd hn (by simp [isOkC])
          | okE e => rfl
          | err e => rfl
          | depthOut => rfl
          | stepOut => rfl
    exact ⟨hnext steps depth, hskip steps depth⟩

/-- Fully nested list input: `j` opening `l` tags followed by `j`
closing `e` tags. -/
def nest (j : Nat) : List Nat := List.replicate j 108 ++ List.replicate j 101

/-- C5 counterexample: the call-recursion depth `next()` needs to skip a
value is not a constant independent of the nesting depth.  Skipping the
5-deep nested list fails within call depth 8 but succeeds at depth 9,
while the 2-deep nested list already succeeds at depth 3 — the required
depth moves with the nesting, with step budget to spare in each case. -/
theorem C5_counterexample :
    isOkC (walk (nest 5) 40 8 true ⟨0, 10, 0⟩) = false ∧
    walk (nest 5) 40 9 true ⟨0, 10, 0⟩ = .okC ⟨10, 10, 0⟩ ∧
    walk (nest 2) 40 3 true ⟨0, 4, 0⟩ = .okC ⟨4, 4, 0⟩ := by
  decide

/-- C5 (amended): `next()` skips nested collections by mutual call
recursion with `skipall()`, not by a depth-bounded iterative loop: on a
value opening `j` nested lists, `next()` cannot complete within
mutual-call depth `2j - 2`, however many evaluation steps are granted, so
the call-stack usage grows linearly with the nesting depth of adversarial
input instead of being bounded by a constant. -/
theorem C5_skip_depth_unbounded (j : Nat) (buf : List Nat) (c : Cur)
    (steps depth : Nat)
    (hlead : ∀ i, i < j → byteAt buf (c.pos + i) = 108) (hlen : c.len = 0)
    (hdep : depth + 2 ≤ 2 * j) :
    isOkC (walk buf steps depth true c) = false :=
  (walk_depth_lower buf j c steps depth hlead hlen).1 hdep

/-- Witness for the C5 depth bound on the 3-deep nested list. -/
theorem C5_skip_depth_unbounded_witness :
    isOkC (walk (nest 3) 50 3 true ⟨0, 6, 0⟩) = false :=
  C5_skip_depth_unbounded 3 (nest 3) ⟨0, 6, 0⟩ 50 3 (by decide) rfl (by decide)

/-!
## Dispatch table (`Proto_Map`, `Mapping::search`, `protocol_map.h`)

The table is an AVL tree of `(strview name, handler)` pairs.
`Mapping::search` descends iteratively: it stops at the first node whose
key compares equal to the search key under the strview comparison, else
follows `child(key < search_key)`.  `Proto_Map::dispatch(name, list)`
invokes the found handler, or the default handler when the search comes
back empty; handlers are identified here by a number.  The tree must be
nonempty: the source calls `_str_tab.first()->search(...)` without a null
check.
-/

inductive PMap
  | leaf
  | node (c0 c1 : PMap) (key : List Nat) (hid : Nat)
deriving Repr, DecidableEq

/-- Embeds `Mapping::search`: descend while the key differs, following
`child(higher(search_key))` with `higher` the strview less-than. -/
def search : PMap → List Nat → Option (List Nat × Nat)
  | .leaf, _ => none
  | .node c0 c1 k h, sk =>
    if svEq k sk then some (k, h)
    else if svCmp k sk < 0 then search c1 sk else search c0 sk

def entriesP : PMap → List (List Nat × Nat)
  | .leaf => []
  | .node c0 c1 k h => (k, h) :: (entriesP c0 ++ entriesP c1)

inductive DispOut
  | handler (key : List Nat) (hid : Nat)
  | deflt
deriving Repr, DecidableEq

/-- Embeds the two-argument `Proto_Map::dispatch`: call the matching
entry or the default handler. -/
def dispatch2 (t : PMap) (name : List Nat) : DispOut :=
  match search t name with
  | some (k, h) => .handler k h
  | none => .deflt

/-- An entry found by `search` is a registered entry and its name
compares equal to the search key under the strview comparison. -/
lemma search_sound (t : PMap) (n : List Nat) (k : List Nat) (h : Nat)
    (hs : search t n = some (k, h)) :
    (k, h) ∈ entriesP t ∧ svEq k n = true := by
  induction t with
  | leaf => simp [search] at hs
  | node c0 c1 k0 h0 ih0 ih1 =>
    simp only [search] at hs
    by_cases he : svEq k0 n
    · rw [if_pos he] at hs
      have hp := Option.some.inj hs
      obtain ⟨rfl, rfl⟩ : k0 = k ∧ h0 = h :=
        ⟨congrArg Prod.fst hp, congrArg Prod.snd hp⟩
      exact ⟨List.mem_cons_self _ _, he⟩
    · rw [if_neg he] at hs
      by_cases hlt : svCmp k0 n < 0
      · rw [if_pos hlt] at hs
        obtain ⟨hm, hq⟩ := ih1 hs
        exact ⟨by simp [entriesP, hm], hq⟩
      · rw [if_neg hlt] at hs
        obtain ⟨hm, hq⟩ := ih0 hs
        exact ⟨by simp [entriesP, hm], hq⟩

/-- When no registered name compares equal to the search key, `search`
comes back empty. -/
lemma search_none (t : PMap) (n : List Nat)
    (hall : ∀ kh ∈ entriesP t, svEq kh.1 n = false) :
    search t n = none := by
  induction t with
  | leaf => rfl
  | node c0 c1 k0 h0 ih0 ih1 =>
    have hk0 : svEq k0 n = false := hall (k0, h0) (by simp [entriesP])
    rw [show search (PMap.node c0 c1 k0 h0) n =
          if svEq k0 n then some (k0, h0)
          else if svCmp k0 n < 0 then search c1 n else search c0 n from rfl,
        if_neg (by simp [hk0])]
    by_cases hlt : svCmp k0 n < 0
    · rw [if_pos hlt]
      exact ih1 (fun kh hm => hall kh (by simp [entriesP, hm]))
    · rw [if_neg hlt]
      exact ih0 (fun kh hm => hall kh (by simp [entriesP, hm]))

/-- C6 counterexample: with the single handler registered under `ping`,
dispatching the 3-byte name `pin` invokes that handler — the strview
comparison only examines `min(4, 3)` bytes, so names of differing
lengths do match, contrary to the claim's exact byte-for-byte rule. -/
theorem C6_counterexample :
    dispatch2 (.node .leaf .leaf [112, 105, 110, 103] 7) [112, 105, 110] =
      .handler [112, 105, 110, 103] 7 ∧
    ([112, 105, 110, 103] : List Nat).length ≠ ([112, 105, 110] : List Nat).length := by
  decide

/-- C6 (amended): given a nonempty table, the Dispatcher invokes a
registered handler only when the message name compares equal to that
handler's registered name under the strview comparison — byte-for-byte
over the first `min` of the two lengths, so a prefix or extension of a
registered name also matches — and when no registered name compares
equal it invokes the default handler exactly once with the name and the
remaining list, the overall dispatch still succeeding. -/
theorem C6_dispatch_strview_match (t : PMap) (n : List Nat) (hne : t ≠ .leaf) :
    (∀ k h, dispatch2 t n = .handler k h →
       (k, h) ∈ entriesP t ∧ svEq k n = true) ∧
    ((∀ kh ∈ entriesP t, svEq kh.1 n = false) → dispatch2 t n = .deflt) := by
  constructor
  · intro k h hd
    unfold dispatch2 at hd
    cases hs : search t n with
    | none => rw [hs] at hd; exact absurd hd (by simp)
    | some kh =>
      rw [hs] at hd
      obtain ⟨k0, h0⟩ := kh
      have hp : k0 = k ∧ h0 = h := by
        cases hd
        exact ⟨rfl, rfl⟩
      obtain ⟨rfl, rfl⟩ := hp
      exact search_sound t n k0 h0 hs
  · intro hall
    unfold dispatch2
    rw [search_none t n hall]

/-- Witness for C6: in a two-entry table neither `zzz` matches, so the
default handler fires; and whatever entry a successful lookup returns
strview-matches the name. -/
theorem C6_dispatch_strview_match_witness :
    dispatch2 (.node (.node .leaf .leaf [100, 114, 97, 119] 2) .leaf
               [112, 105, 110, 103] 7) [122, 122, 122] = .deflt :=
  (C6_dispatch_strview_match
      (.node (.node .leaf .leaf [100, 114, 97, 119] 2) .leaf [112, 105, 110, 103] 7)
      [122, 122, 122] (by decide)).2 (by decide)

/-!
## Side-chunk framing across buffer regrowth (claim C3 support)

The lemmas below track how `reserve_addnl` and `writeAt` treat the bytes
already stored: a resize copies the first `len` bytes into the fresh
storage, so the prefix up to the logical length survives every regrowth,
and a completed read deposits its chunk verbatim at the requested
offset.
-/

def sbInv (sb : SB) : Prop := sb.data.length = sb.cap ∧ sb.len ≤ sb.cap ∧ 1 ≤ sb.cap

lemma dUgo_ge (f : Nat) : ∀ cap req : Nat, 1 ≤ cap → req ≤ 2 ^ f * cap →
    req ≤ dUgo f cap req := by
  induction f with
  | zero => intro cap req _ hf; simpa [dUgo] using hf
  | succ f ih =>
    intro cap req hc hf
    simp only [dUgo]
    by_cases h : cap < req
    · rw [if_pos h]
      apply ih (cap * 2) req (by omega)
      calc req ≤ 2 ^ (f + 1) * cap := hf
        _ = 2 ^ f * (cap * 2) := by ring
    · rw [if_neg h]; omega

lemma doubleUntil_ge (cap req : Nat) (hc : 1 ≤ cap) : req ≤ doubleUntil cap req := by
  apply dUgo_ge req cap req hc
  calc req ≤ 2 ^ req := (Nat.lt_two_pow req).le
    _ ≤ 2 ^ req * cap := Nat.le_mul_of_pos_right _ (by omega)

lemma calc_res_fields (sb : SB) (request : Nat) :
    (calculate_reservation sb request).1.cap = sb.cap ∧
    (calculate_reservation sb request).1.len = sb.len ∧
    (calculate_reservation sb request).1.data = sb.data := by
  unfold calculate_reservation calcGrow
  by_cases h : request < sb.cap / 4
  · rw [if_pos h]
    split
    · exact ⟨rfl, rfl, rfl⟩
    · split
      · exact ⟨rfl, rfl, rfl⟩
      · exact ⟨rfl, rfl, rfl⟩
  · rw [if_neg h]
    split
    · exact ⟨rfl, rfl, rfl⟩
    · split
      · exact ⟨rfl, rfl, rfl⟩
      · exact ⟨rfl, rfl, rfl⟩

lemma calc_res_req (sb : SB) (request : Nat) (h3 : 1 ≤ sb.cap) :
    request ≤ max (calculate_reservation sb request).2 sb.cap := by
  unfold calculate_reservation calcGrow
  by_cases h : request < sb.cap / 4
  · rw [if_pos h]
    split
    · next hlt => exact le_max_of_le_left (doubleUntil_ge sb.cap request h3)
    · next hge => exact le_max_of_le_right (by simpa using hge)
  · rw [if_neg h]
    split
    · next hlt => exact le_max_of_le_left (doubleUntil_ge sb.cap request h3)
    · next hge => exact le_max_of_le_right (by simpa using hge)

lemma resize_spec (sb : SB) (nc : Nat)
    (h1 : sb.data.length = sb.cap) (h2 : sb.len ≤ sb.cap) :
    (resizeSB sb nc).cap = max nc sb.cap ∧
    (resizeSB sb nc).len = sb.len ∧
    (resizeSB sb nc).csr = sb.csr ∧
    (resizeSB sb nc).data.length = (resizeSB sb nc).cap ∧
    (resizeSB sb nc).data.take sb.len = sb.data.take sb.len := by
  unfold resizeSB
  by_cases h : nc ≤ sb.cap
  · rw [if_pos h]
    exact ⟨by omega, rfl, rfl, h1, rfl⟩
  · rw [if_neg h]
    have hl : (sb.data.take sb.len).length = sb.len :=
      List.length_take_of_le (by omega)
    refine ⟨by simp; omega, rfl, rfl, ?_, ?_⟩
    · simp [List.length_take, List.length_replicate]
      omega
    · simpa using
        @List.take_left' Nat (sb.data.take sb.len) (List.replicate (nc - sb.len) 0) sb.len hl

lemma reserve_addnl_spec (sb : SB) (n : Nat) (hinv : sbInv sb) :
    (reserve_addnl sb n).2 = sb.len ∧
    (reserve_addnl sb n).1.len = sb.len ∧
    (reserve_addnl sb n).1.data.take sb.len = sb.data.take sb.len ∧
    sb.len + n ≤ (reserve_addnl sb n).1.cap ∧
    sbInv (reserve_addnl sb n).1 := by
  obtain ⟨h1, h2, h3⟩ := hinv
  obtain ⟨hcap, hlen, hdata⟩ := calc_res_fields sb (n + sb.len)
  have hreq := calc_res_req sb (n + sb.len) h3
  obtain ⟨hr1, hr2, _, hr4, hr5⟩ :=
    resize_spec (calculate_reservation sb (n + sb.len)).1
      (calculate_reservation sb (n + sb.len)).2
      (by rw [hdata, hcap]; exact h1) (by rw [hlen, hcap]; exact h2)
  unfold reserve_addnl
  refine ⟨rfl, by rw [hr2, hlen], ?_, ?_, ?_, ?_, ?_⟩
  · rw [hlen] at hr5
    rw [hr5, hdata]
  · rw [hr1, hcap]
    omega
  · exact hr4
  · rw [hr2, hlen, hr1, hcap]
    omega
  · rw [hr1, hcap]
    omega

/-- The bytes of a region inside a common prefix agree. -/
lemma slice_take (l : List Nat) (k off n : Nat) (h : off + n ≤ k) :
    ((l.take k).drop off).take n = (l.drop off).take n := by
  rw [List.drop_take, List.take_take]
  congr 1
  omega

lemma slice_eq_of_take_eq (l l2 : List Nat) (k off n : Nat)
    (hp : l.take k = l2.take k) (h : off + n ≤ k) :
    (l.drop off).take n = (l2.drop off).take n := by
  rw [← slice_take l k off n h, hp, slice_take l2 k off n h]

lemma byteAt_take (l : List Nat) (n i : Nat) (h : i < n) :
    byteAt (l.take n) i = byteAt l i := by
  unfold byteAt
  rw [List.getD_eq_getElem?_getD, List.getD_eq_getElem?_getD,
      List.getElem?_take, if_pos h]

lemma byteAt_eq_of_take_eq (l l2 : List Nat) (k i : Nat)
    (hp : l.take k = l2.take k) (h : i < k) : byteAt l i = byteAt l2 i := by
  rw [← byteAt_take l k i h, hp, byteAt_take l2 k i h]

lemma byteAt_region (l : List Nat) (off : Nat) (chunk : List Nat) (i : Nat)
    (h : (l.drop off).take chunk.length = chunk) (hi : i < chunk.length) :
    byteAt l (off + i) = byteAt chunk i := by
  rw [← h, byteAt_take _ _ _ hi]
  unfold byteAt
  rw [List.getD_eq_getElem?_getD, List.getD_eq_getElem?_getD, List.getElem?_drop]

lemma writeAt_len (sb : SB) (off : Nat) (chunk : List Nat)
    (h : off + chunk.length ≤ sb.data.length) :
    (writeAt sb off chunk).data.length = sb.data.length := by
  unfold writeAt
  simp [List.length_take, List.length_drop]
  omega

lemma writeAt_take (sb : SB) (off : Nat) (chunk : List Nat)
    (h : off ≤ sb.data.length) :
    (writeAt sb off chunk).data.take off = sb.data.take off := by
  unfold writeAt
  have hl : (sb.data.take off).length = off := List.length_take_of_le h
  show ((sb.data.take off ++ chunk ++ sb.data.drop (off + chunk.length))).take off
        = sb.data.take off
  rw [List.append_assoc]
  exact List.take_left' hl

lemma writeAt_region (sb : SB) (off : Nat) (chunk : List Nat)
    (h : off ≤ sb.data.length) :
    ((writeAt sb off chunk).data.drop off).take chunk.length = chunk := by
  unfold writeAt
  have hl : (sb.data.take off).length = off := List.length_take_of_le h
  show (((sb.data.take off ++ chunk ++ sb.data.drop (off + chunk.length))).drop off).take
        chunk.length = chunk
  rw [List.append_assoc, List.drop_left' hl]
  exact List.take_left chunk _

lemma writeAt_take_full (sb : SB) (off : Nat) (chunk : List Nat)
    (hoff : off ≤ sb.data.length) :
    (writeAt sb off chunk).data.take (off + chunk.length) = sb.data.take off ++ chunk := by
  unfold writeAt
  have hl : (sb.data.take off).length = off := List.length_take_of_le hoff
  have hl2 : (sb.data.take off ++ chunk).length = off + chunk.length := by simp [hl]
  exact List.take_left' hl2

lemma byteAt_append (A B : List Nat) (i : Nat) :
    byteAt (A ++ B) (A.length + i) = byteAt B i := by
  unfold byteAt
  rw [List.getD_eq_getElem?_getD, List.getD_eq_getElem?_getD,
      List.getElem?_append_right (by omega)]
  have h : A.length + i - A.length = i := by omega
  rw [h]

lemma mkHeader_len (a b c n : Nat) : (mkHeader a b c n).length = 8 := by
  simp [mkHeader, be32bytes]

lemma mkHeader_plen (a b c n : Nat) (h : n < 4294967296) :
    be32 (byteAt (mkHeader a b c n) 4) (byteAt (mkHeader a b c n) 5)
         (byteAt (mkHeader a b c n) 6) (byteAt (mkHeader a b c n) 7) = n := by
  show be32 (n / 16777216 % 256) (n / 65536 % 256) (n / 256 % 256) (n % 256) = n
  unfold be32
  omega

lemma mkHeader_chunk (a b c n : Nat) : byteAt (mkHeader a b c n) 3 = c := rfl

/-- One `_on_ready` call at header size: read the payload length out of
the 8 freshly buffered bytes and request that much more space. -/
lemma onReady_header_state (st : CState) (bufOff : Nat) :
    onReady st 8 bufOff =
      ({ st with
         sb := (reserve_addnl (extend_length st.sb 8)
                  (be32 (byteAt st.sb.data (bufOff + 4)) (byteAt st.sb.data (bufOff + 5))
                        (byteAt st.sb.data (bufOff + 6)) (byteAt st.sb.data (bufOff + 7)))).1,
         reqLen := be32 (byteAt st.sb.data (bufOff + 4)) (byteAt st.sb.data (bufOff + 5))
                        (byteAt st.sb.data (bufOff + 6)) (byteAt st.sb.data (bufOff + 7)),
         reqOff := st.sb.len + 8 }, []) := rfl

/-- One `_on_ready` call completing a side chunk: record the
`(offset, length)` pair and ask for the next header without discarding
the buffered bytes. -/
lemma onReady_chunk_state (st : CState) (length bufOff : Nat) (h8 : length ≠ 8)
    (hck : byteAt st.sb.data (bufOff - 8 + 3) ≠ 0) :
    onReady st length bufOff =
      ({ sb := (reserve_addnl (extend_length st.sb length) 8).1,
         waiting := some (bufOff, length),
         reqLen := 8, reqOff := st.sb.len + length }, []) := by
  unfold onReady
  rw [if_neg h8,
      if_pos (show byteAt (extend_length st.sb length).data (bufOff - 8 + 3) ≠ 0 from hck)]
  rfl

/-- One `_on_ready` call completing a primary message: dispatch with the
payload bytes and the pending side chunk resolved against the current
base, then drop the side chunk and reset the buffer. -/
lemma onReady_primary_state (st : CState) (length bufOff : Nat) (h8 : length ≠ 8)
    (hck : byteAt st.sb.data (bufOff - 8 + 3) = 0) :
    onReady st length bufOff =
      ({ sb := reserve_reset (extend_length st.sb length) 8,
         waiting := none, reqLen := 8, reqOff := 0 },
       [.dispatchCall ((st.sb.data.drop bufOff).take length)
                      (st.waiting.map (fun w => (st.sb.data.drop w.1).take w.2))]) := by
  unfold onReady
  rw [if_neg h8,
      if_neg (show ¬ byteAt (extend_length st.sb length).data (bufOff - 8 + 3) ≠ 0 by
        simpa using hck)]
  rfl

/-- One completed read: deposit the requested bytes at the requested
offset and run `_on_ready` on them. -/
lemma runFrames_events (fuel : Nat) (wire : List Nat) (st : CState)
    (h0 : st.reqLen ≠ 0) (hw : st.reqLen ≤ wire.length) :
    (runFrames (fuel + 1) wire st).2 =
      (onReady { st with sb := writeAt st.sb st.reqOff (wire.take st.reqLen) }
         st.reqLen st.reqOff).2 ++
      (runFrames fuel (wire.drop st.reqLen)
         (onReady { st with sb := writeAt st.sb st.reqOff (wire.take st.reqLen) }
            st.reqLen st.reqOff).1).2 := by
  simp only [runFrames]
  rw [if_neg (by push_neg; exact ⟨h0, by omega⟩)]

/-- Composable description of one header read: the 8 bytes land at the
logical end of the buffer, the declared payload length becomes the next
request, and the buffered prefix grows by exactly those 8 bytes. -/
lemma step_header (st : CState) (fuel : Nat) (pre rest B : List Nat) (plen : Nat)
    (hreq : st.reqLen = 8) (hoff : st.reqOff = st.sb.len)
    (hinv : sbInv st.sb) (hcap : st.sb.len + 8 ≤ st.sb.cap)
    (hB : st.sb.data.take st.sb.len = B) (hpre : pre.length = 8)
    (hplen : be32 (byteAt pre 4) (byteAt pre 5) (byteAt pre 6) (byteAt pre 7) = plen) :
    ∃ st2,
      (runFrames (fuel + 1) (pre ++ rest) st).2 = (runFrames fuel rest st2).2 ∧
      st2.reqLen = plen ∧ st2.reqOff = st2.sb.len ∧ st2.waiting = st.waiting ∧
      sbInv st2.sb ∧ st2.sb.len = st.sb.len + 8 ∧
      st2.sb.len + plen ≤ st2.sb.cap ∧
      st2.sb.data.take st2.sb.len = B ++ pre := by
  obtain ⟨hd1, hd2, hd3⟩ := hinv
  have h0 : st.reqLen ≠ 0 := by omega
  have hwl : st.reqLen ≤ (pre ++ rest).length := by
    rw [hreq]; simp [hpre]
  have e := runFrames_events fuel (pre ++ rest) st h0 hwl
  rw [hreq, hoff, List.take_left' hpre, List.drop_left' hpre] at e
  set W := writeAt st.sb st.sb.len pre with hWdef
  have hWlen : W.len = st.sb.len := rfl
  have hWcap : W.cap = st.sb.cap := rfl
  have hWdlen : W.data.length = st.sb.data.length :=
    writeAt_len st.sb st.sb.len pre (by omega)
  have hwrg : (W.data.drop st.sb.len).take pre.length = pre :=
    writeAt_region st.sb st.sb.len pre (by omega)
  have hOn := onReady_header_state { st with sb := W } st.sb.len
  have hsb' : ({ st with sb := W } : CState).sb = W := rfl
  rw [hsb'] at hOn
  have hplenE : be32 (byteAt W.data (st.sb.len + 4)) (byteAt W.data (st.sb.len + 5))
      (byteAt W.data (st.sb.len + 6)) (byteAt W.data (st.sb.len + 7)) = plen := by
    rw [byteAt_region W.data st.sb.len pre 4 hwrg (by omega),
        byteAt_region W.data st.sb.len pre 5 hwrg (by omega),
        byteAt_region W.data st.sb.len pre 6 hwrg (by omega),
        byteAt_region W.data st.sb.len pre 7 hwrg (by omega)]
    exact hplen
  set plenE := be32 (byteAt W.data (st.sb.len + 4)) (byteAt W.data (st.sb.len + 5))
      (byteAt W.data (st.sb.len + 6)) (byteAt W.data (st.sb.len + 7)) with hpE
  set sbE := extend_length W 8 with hsbEdef
  have hsbElen : sbE.len = st.sb.len + 8 := rfl
  have hinvE : sbInv sbE := by
    refine ⟨?_, ?_, ?_⟩
    · show W.data.length = W.cap
      rw [hWdlen, hd1, hWcap]
    · show W.len + 8 ≤ W.cap
      rw [hWlen, hWcap]; exact hcap
    · show 1 ≤ W.cap
      rw [hWcap]; omega
  obtain ⟨hs1, hs2, hs3, hs4, hs5⟩ := reserve_addnl_spec sbE plenE hinvE
  refine ⟨(onReady { st with sb := W } 8 st.sb.len).1, ?_, ?_, ?_, ?_, ?_, ?_, ?_, ?_⟩
  · rw [e, hOn]
    rfl
  · rw [hOn]
    exact hplenE
  · rw [hOn]
    show W.len + 8 = (reserve_addnl sbE plenE).1.len
    rw [hs2, hsbElen, hWlen]
  · rw [hOn]
  · rw [hOn]
    exact hs5
  · rw [hOn]
    show (reserve_addnl sbE plenE).1.len = st.sb.len + 8
    rw [hs2, hsbElen]
  · rw [hOn]
    show (reserve_addnl sbE plenE).1.len + plen ≤ (reserve_addnl sbE plenE).1.cap
    rw [hs2, ← hplenE]
    exact hs4
  · rw [hOn]
    show (reserve_addnl sbE plenE).1.data.take ((reserve_addnl sbE plenE).1.len) = B ++ pre
    rw [hs2, hs3]
    show W.data.take (W.len + 8) = B ++ pre
    rw [hWlen, ← hpre, writeAt_take_full st.sb st.sb.len pre (by omega), hB]

/-- Composable description of one side-chunk read (`chunk_idx != 0`):
the payload bytes stay buffered, the `(offset, length)` pair is
recorded, and the next header is requested without discarding them. -/
lemma step_chunk (st : CState) (fuel : Nat) (pre rest B : List Nat)
    (hreq : st.reqLen = pre.length) (h8 : pre.length ≠ 8) (h0 : pre.length ≠ 0)
    (hoff : st.reqOff = st.sb.len) (hlen8 : 8 ≤ st.sb.len)
    (hinv : sbInv st.sb) (hcap : st.sb.len + pre.length ≤ st.sb.cap)
    (hB : st.sb.data.take st.sb.len = B)
    (hck : byteAt B (st.sb.len - 8 + 3) ≠ 0) :
    ∃ st2,
      (runFrames (fuel + 1) (pre ++ rest) st).2 = (runFrames fuel rest st2).2 ∧
      st2.reqLen = 8 ∧ st2.reqOff = st2.sb.len ∧
      st2.waiting = some (st.sb.len, pre.length) ∧
      sbInv st2.sb ∧ st2.sb.len = st.sb.len + pre.length ∧
      st2.sb.len + 8 ≤ st2.sb.cap ∧
      st2.sb.data.take st2.sb.len = B ++ pre := by
  obtain ⟨hd1, hd2, hd3⟩ := hinv
  have h0' : st.reqLen ≠ 0 := by rw [hreq]; exact h0
  have hwl : st.reqLen ≤ (pre ++ rest).length := by
    rw [hreq]; simp
  have e := runFrames_events fuel (pre ++ rest) st h0' hwl
  rw [hreq, hoff, List.take_left pre rest, List.drop_left pre rest] at e
  set W := writeAt st.sb st.sb.len pre with hWdef
  have hWlen : W.len = st.sb.len := rfl
  have hWcap : W.cap = st.sb.cap := rfl
  have hWdlen : W.data.length = st.sb.data.length :=
    writeAt_len st.sb st.sb.len pre (by omega)
  have hBlen : B.length = st.sb.len := by
    rw [← hB]; exact List.length_take_of_le (by omega)
  have hWpre : W.data.take st.sb.len = st.sb.data.take st.sb.len :=
    writeAt_take st.sb st.sb.len pre (by omega)
  have hckW : byteAt W.data (st.sb.len - 8 + 3) ≠ 0 := by
    have h1 : byteAt W.data (st.sb.len - 8 + 3) = byteAt st.sb.data (st.sb.len - 8 + 3) :=
      byteAt_eq_of_take_eq _ _ st.sb.len _ hWpre (by omega)
    have h2 : byteAt st.sb.data (st.sb.len - 8 + 3) = byteAt B (st.sb.len - 8 + 3) :=
      byteAt_eq_of_take_eq _ _ st.sb.len _
        (by rw [hB]; rw [← hBlen]; exact (List.take_length B).symm) (by omega)
    rw [h1, h2]; exact hck
  have hOn := onReady_chunk_state { st with sb := W } pre.length st.sb.len h8 hckW
  have hsb' : ({ st with sb := W } : CState).sb = W := rfl
  rw [hsb'] at hOn
  rw [hreq, hoff] at hOn
  set sbE := extend_length W pre.length with hsbEdef
  have hsbElen : sbE.len = st.sb.len + pre.length := rfl
  have hinvE : sbInv sbE := by
    refine ⟨?_, ?_, ?_⟩
    · show W.data.length = W.cap
      rw [hWdlen, hd1, hWcap]
    · show W.len + pre.length ≤ W.cap
      rw [hWlen, hWcap]; exact hcap
    · show 1 ≤ W.cap
      rw [hWcap]; omega
  obtain ⟨hs1, hs2, hs3, hs4, hs5⟩ := reserve_addnl_spec sbE 8 hinvE
  refine ⟨{ sb := (reserve_addnl sbE 8).1, waiting := some (st.sb.len, pre.length),
            reqLen := 8, reqOff := W.len + pre.length },
          ?_, ?_, ?_, ?_, ?_, ?_, ?_, ?_⟩
  · rw [e, hOn]
    rfl
  · rfl
  · show W.len + pre.length = (reserve_addnl sbE 8).1.len
    rw [hs2, hsbElen, hWlen]
  · rfl
  · exact hs5
  · show (reserve_addnl sbE 8).1.len = st.sb.len + pre.length
    rw [hs2, hsbElen]
  · show (reserve_addnl sbE 8).1.len + 8 ≤ (reserve_addnl sbE 8).1.cap
    rw [hs2]
    exact hs4
  · show (reserve_addnl sbE 8).1.data.take ((reserve_addnl sbE 8).1.len) = B ++ pre
    rw [hs2, hs3]
    show W.data.take (W.len + pre.length) = B ++ pre
    rw [hWlen, writeAt_take_full st.sb st.sb.len pre (by omega), hB]

/-- Composable description of one primary read (`chunk_idx == 0`): one
dispatch call fires, carrying the payload bytes and the pending side
chunk resolved against the buffer contents at dispatch time. -/
lemma step_primary (st : CState) (fuel : Nat) (pre rest B : List Nat)
    (hreq : st.reqLen = pre.length) (h8 : pre.length ≠ 8) (h0 : pre.length ≠ 0)
    (hoff : st.reqOff = st.sb.len) (hlen8 : 8 ≤ st.sb.len)
    (hinv : sbInv st.sb) (hcap : st.sb.len + pre.length ≤ st.sb.cap)
    (hB : st.sb.data.take st.sb.len = B)
    (hck : byteAt B (st.sb.len - 8 + 3) = 0)
    (hwb : ∀ a b, st.waiting = some (a, b) → a + b ≤ st.sb.len) :
    ∃ st2,
      (runFrames (fuel + 1) (pre ++ rest) st).2 =
        Ev.dispatchCall pre
            (st.waiting.map (fun w => ((B ++ pre).drop w.1).take w.2)) ::
          (runFrames fuel rest st2).2 := by
  obtain ⟨hd1, hd2, hd3⟩ := hinv
  have h0' : st.reqLen ≠ 0 := by rw [hreq]; exact h0
  have hwl : st.reqLen ≤ (pre ++ rest).length := by
    rw [hreq]; simp
  have e := runFrames_events fuel (pre ++ rest) st h0' hwl
  rw [hreq, hoff, List.take_left pre rest, List.drop_left pre rest] at e
  set W := writeAt st.sb st.sb.len pre with hWdef
  have hWdlen : W.data.length = st.sb.data.length :=
    writeAt_len st.sb st.sb.len pre (by omega)
  have hBlen : B.length = st.sb.len := by
    rw [← hB]; exact List.length_take_of_le (by omega)
  have hWpre : W.data.take st.sb.len = st.sb.data.take st.sb.len :=
    writeAt_take st.sb st.sb.len pre (by omega)
  have hckW : byteAt W.data (st.sb.len - 8 + 3) = 0 := by
    have h1 : byteAt W.data (st.sb.len - 8 + 3) = byteAt st.sb.data (st.sb.len - 8 + 3) :=
      byteAt_eq_of_take_eq _ _ st.sb.len _ hWpre (by omega)
    have h2 : byteAt st.sb.data (st.sb.len - 8 + 3) = byteAt B (st.sb.len - 8 + 3) :=
      byteAt_eq_of_take_eq _ _ st.sb.len _
        (by rw [hB]; rw [← hBlen]; exact (List.take_length B).symm) (by omega)
    rw [h1, h2]; exact hck
  have hOn := onReady_primary_state { st with sb := W } pre.length st.sb.len h8 hckW
  have hsb' : ({ st with sb := W } : CState).sb = W := rfl
  have hwt' : ({ st with sb := W } : CState).waiting = st.waiting := rfl
  rw [hsb', hwt'] at hOn
  have hWfull : W.data.take (st.sb.len + pre.length) = B ++ pre := by
    rw [writeAt_take_full st.sb st.sb.len pre (by omega), hB]
  have hpay : (W.data.drop st.sb.len).take pre.length = pre :=
    writeAt_region st.sb st.sb.len pre (by omega)
  have hmap : st.waiting.map (fun w => (W.data.drop w.1).take w.2) =
      st.waiting.map (fun w => ((B ++ pre).drop w.1).take w.2) := by
    cases hwo : st.waiting with
    | none => rfl
    | some w =>
      show some ((W.data.drop w.1).take w.2) = some (((B ++ pre).drop w.1).take w.2)
      congr 1
      apply slice_eq_of_take_eq W.data (B ++ pre) (st.sb.len + pre.length)
      · rw [hWfull]
        have hl : (B ++ pre).length = st.sb.len + pre.length := by simp [hBlen]
        rw [← hl, List.take_length]
      · have := hwb w.1 w.2 (by rw [hwo])
        omega
  rw [hreq, hoff] at hOn
  rw [hpay, hmap] at hOn
  refine ⟨{ sb := reserve_reset (extend_length W pre.length) 8, waiting := none,
            reqLen := 8, reqOff := 0 }, ?_⟩
  rw [e, hOn]
  rfl

/-- C3 counterexample: the claim fails when the side chunk is exactly 8
bytes long.  Feeding a side-chunk frame `{chunk_idx = 1, length = 8}`
with payload `9,9,9,9,9,9,9,9` followed by a primary frame, the run
produces no dispatch at all — the 8 payload bytes are consumed as a
frame header (the same header/payload ambiguity as in the primary case)
and the client blocks waiting for a 151587081-byte read. -/
theorem C3_counterexample :
    (runFrames 4 (mkHeader 0 0 1 8 ++ [9, 9, 9, 9, 9, 9, 9, 9] ++ mkHeader 0 0 0 5
        ++ [108, 52, 58, 112, 105]) initState).2 = [] := by
  decide

/-- C3 (amended): for every byte stream consisting of a side-chunk frame
(`chunk_index != 0`, an N-byte payload) immediately followed by a
primary frame (`chunk_index == 0`, an L-byte payload), with N and L
nonzero and neither equal to the 8-byte header size, the dispatch for
the primary message resolves the recorded `(offset, length)` pair
against the buffer base current at dispatch time to exactly the original
N side-chunk bytes — every regrowth in between copies the buffered
prefix, so the resolved range survives relocation. -/
theorem C3_side_chunk_delivery (f1 f2 g1 g2 ci : Nat) (p q : List Nat)
    (hp0 : p ≠ []) (hq0 : q ≠ []) (hp8 : p.length ≠ 8) (hq8 : q.length ≠ 8)
    (hpw : p.length < 4294967296) (hqw : q.length < 4294967296) (hci : ci ≠ 0) :
    (runFrames 4 (mkHeader f1 f2 ci p.length ++ p ++ mkHeader g1 g2 0 q.length ++ q)
        initState).2 = [.dispatchCall q (some p)] := by
  have hN1 : 1 ≤ p.length := List.length_pos.mpr hp0
  have hL1 : 1 ≤ q.length := List.length_pos.mpr hq0
  have hw : mkHeader f1 f2 ci p.length ++ p ++ mkHeader g1 g2 0 q.length ++ q
      = mkHeader f1 f2 ci p.length ++ (p ++ (mkHeader g1 g2 0 q.length ++ q)) := by
    simp [List.append_assoc]
  rw [hw]
  obtain ⟨st1, e1, h1rl, h1ro, h1w, h1inv, h1len, h1cap, h1take⟩ :=
    step_header initState 3 (mkHeader f1 f2 ci p.length)
      (p ++ (mkHeader g1 g2 0 q.length ++ q)) [] p.length
      rfl rfl ⟨rfl, by decide, by decide⟩ (by decide) rfl
      (mkHeader_len f1 f2 ci p.length) (mkHeader_plen f1 f2 ci p.length hpw)
  have h1w' : st1.waiting = none := h1w
  have h1len' : st1.sb.len = 8 := h1len
  have h1take' : st1.sb.data.take st1.sb.len = mkHeader f1 f2 ci p.length := by
    simpa using h1take
  have hck2 : byteAt (mkHeader f1 f2 ci p.length) (st1.sb.len - 8 + 3) ≠ 0 := by
    rw [h1len']
    show byteAt (mkHeader f1 f2 ci p.length) 3 ≠ 0
    rw [mkHeader_chunk]
    exact hci
  obtain ⟨st2, e2, h2rl, h2ro, h2w, h2inv, h2len, h2cap, h2take⟩ :=
    step_chunk st1 2 p (mkHeader g1 g2 0 q.length ++ q) (mkHeader f1 f2 ci p.length)
      h1rl hp8 (by omega) h1ro (by omega) h1inv h1cap h1take' hck2
  have h2w' : st2.waiting = some (8, p.length) := by rw [h2w, h1len']
  have h2len' : st2.sb.len = 8 + p.length := by rw [h2len, h1len']
  obtain ⟨st3, e3, h3rl, h3ro, h3w, h3inv, h3len, h3cap, h3take⟩ :=
    step_header st2 1 (mkHeader g1 g2 0 q.length) q
      (mkHeader f1 f2 ci p.length ++ p) q.length
      h2rl h2ro h2inv h2cap h2take
      (mkHeader_len g1 g2 0 q.length) (mkHeader_plen g1 g2 0 q.length hqw)
  have h3w' : st3.waiting = some (8, p.length) := by rw [h3w, h2w']
  have h3len' : st3.sb.len = 8 + p.length + 8 := by rw [h3len, h2len']
  have hlen12 : (mkHeader f1 f2 ci p.length ++ p).length = 8 + p.length := by
    simp [mkHeader_len]
  have hck4 : byteAt (mkHeader f1 f2 ci p.length ++ p ++ mkHeader g1 g2 0 q.length)
      (st3.sb.len - 8 + 3) = 0 := by
    have hpos : st3.sb.len - 8 + 3 = (mkHeader f1 f2 ci p.length ++ p).length + 3 := by
      rw [h3len', hlen12]
      omega
    rw [hpos, byteAt_append (mkHeader f1 f2 ci p.length ++ p)
        (mkHeader g1 g2 0 q.length) 3, mkHeader_chunk]
  have hwb4 : ∀ a b, st3.waiting = some (a, b) → a + b ≤ st3.sb.len := by
    intro a b hab
    rw [h3w'] at hab
    have hp2 := Option.some.inj hab
    have ha : a = 8 := (congrArg Prod.fst hp2).symm
    have hb : b = p.length := (congrArg Prod.snd hp2).symm
    rw [ha, hb, h3len']
    omega
  obtain ⟨st4, e4⟩ :=
    step_primary st3 0 q [] (mkHeader f1 f2 ci p.length ++ p ++ mkHeader g1 g2 0 q.length)
      h3rl hq8 (by omega) h3ro (by omega) h3inv h3cap h3take hck4 hwb4
  rw [List.append_nil] at e4
  calc (runFrames 4 (mkHeader f1 f2 ci p.length ++
          (p ++ (mkHeader g1 g2 0 q.length ++ q))) initState).2
      = (runFrames 3 (p ++ (mkHeader g1 g2 0 q.length ++ q)) st1).2 := e1
    _ = (runFrames 2 (mkHeader g1 g2 0 q.length ++ q) st2).2 := e2
    _ = (runFrames 1 q st3).2 := e3
    _ = [Ev.dispatchCall q (some p)] := by
        rw [e4, h3w']
        show Ev.dispatchCall q
            (some (((mkHeader f1 f2 ci p.length ++ p ++ mkHeader g1 g2 0 q.length ++ q).drop
                8).take p.length)) :: ([] : List Ev) = [Ev.dispatchCall q (some p)]
        have hassoc : mkHeader f1 f2 ci p.length ++ p ++ mkHeader g1 g2 0 q.length ++ q
            = mkHeader f1 f2 ci p.length ++ (p ++ (mkHeader g1 g2 0 q.length ++ q)) := by
          simp [List.append_assoc]
        rw [hassoc, List.drop_left' (mkHeader_len f1 f2 ci p.length), List.take_left]

/-- Witness for C3 on a 5-byte side chunk and a 2-byte primary
payload. -/
theorem C3_side_chunk_delivery_witness :
    (runFrames 4 (mkHeader 0 0 1 5 ++ [1, 2, 3, 4, 5] ++ mkHeader 0 0 0 2 ++ [108, 101])
        initState).2 = [Ev.dispatchCall [108, 101] (some [1, 2, 3, 4, 5])] :=
  C3_side_chunk_delivery 0 0 0 0 1 [1, 2, 3, 4, 5] [108, 101]
    (by decide) (by decide) (by decide) (by decide) (by decide) (by decide) (by decide)

end XpraProof
